import Mathlib

/-!
Shallow embedding of `threatexchange/cli/config_cmd.py`: the schema-driven
collab-edit command surface, the edit-set resolver, the collab store mediator,
and the extension add/validate path, together with proofs about them.
-/

set_option autoImplicit false

namespace ConfigCmd

/-- Runtime values moving through the CLI surface and JSON payloads. -/
inductive Value where
  | str (s : String)
  | int (n : Int)
  | bool (b : Bool)
  deriving DecidableEq, Repr

/-- A Python `dict` used as the edit set / a parsed JSON object: an association
list with unique keys, kept in insertion order. -/
abbrev Dict := List (String × Value)

/-- `d[k]` lookup (first matching key). -/
def dictGet : Dict → String → Option Value
  | [], _ => none
  | kv :: rest, k => if kv.1 = k then some kv.2 else dictGet rest k

/-- `d[k] = v`: replace the value at an existing key, else append the pair. -/
def dictSet : Dict → String → Value → Dict
  | [], k, v => [(k, v)]
  | kv :: rest, k, v => if kv.1 = k then (k, v) :: rest else kv :: dictSet rest k v

/-- Remove the pair at key `k` (every one, for robustness; keys are unique in
a Python dict). -/
def eraseKey : Dict → String → Dict
  | [], _ => []
  | kv :: rest, k => if kv.1 = k then eraseKey rest k else kv :: eraseKey rest k

/-- `d.pop(k)` without a default: `none` models the raised `KeyError`. -/
def dictPop (d : Dict) (k : String) : Option Dict :=
  match dictGet d k with
  | none => none
  | some _ => some (eraseKey d k)

/-- A Python type object as the argument machinery sees it: a display name and,
when it is an `Enum` subclass, its member names in declaration order. -/
structure PyType where
  typeName : String
  enumMembers : Option (List String)
  deriving DecidableEq, Repr

/-- A field type hint; `generic` models a hint with `__args__` (such as
`Optional[X]`), of which the source takes `__args__[0]` as the target type. -/
inductive PyFieldType where
  | simple (t : PyType)
  | generic (first : PyType)
  deriving DecidableEq, Repr

/-- `target_type` resolution from `_add_argument`: unwrap `__args__[0]` when
the hint has arguments, else the hint itself. -/
def PyFieldType.target : PyFieldType → PyType
  | .simple t => t
  | .generic t => t

/-- One dataclass field of a collab config class, as `dataclasses.fields`
reports it: name, `init` flag, default / default-factory presence, the type
hint, and the optional `metavar` / `help` metadata entries. -/
structure FieldSpec where
  name : String
  init : Bool
  hasDefault : Bool
  hasDefaultFactory : Bool
  fieldType : PyFieldType
  metadataMetavar : Option String := none
  metadataHelp : Option String := none
  deriving DecidableEq, Repr

/-- `_UpdateCollabCommand._IGNORE_FIELDS`. -/
def IGNORE_FIELDS : List String := ["name", "api", "enabled"]

/-- `_UpdateCollabCommand._is_argument_field`. -/
def isArgumentField (f : FieldSpec) : Bool :=
  if f.init = false then false
  else if IGNORE_FIELDS.contains f.name then false
  else true

/-- `field.name.replace('_', '-')`: replace every underscore character with a
hyphen. -/
def dashName (s : String) : String :=
  String.mk (s.data.map (fun c => if c = '_' then '-' else c))

/-- One synthesized `--flag` of the command surface. -/
structure ArgFlag where
  flagName : String
  required : Bool
  metavar : String
  choices : Option (List String)
  help : String
  deriving DecidableEq, Repr

/-- `_UpdateCollabCommand._add_argument`: build the flag for one argument
field. Enum target types get a choices-restricted parser and a bracketed
member-list metavar; non-empty field metadata overrides `metavar` and `help`. -/
def addArgument (f : FieldSpec) : ArgFlag :=
  let targetType := f.fieldType.target
  let choices :=
    match targetType.enumMembers with
    | some ms => some ms
    | none => none
  let metavar0 :=
    match targetType.enumMembers with
    | some ms => "[" ++ String.intercalate "," ms ++ "]"
    | none => targetType.typeName
  { flagName := "--" ++ dashName f.name
    required := !f.hasDefault && !f.hasDefaultFactory
    metavar := f.metadataMetavar.getD metavar0
    choices := choices
    help := f.metadataHelp.getD "[missing] Add a help annotation on the config class!" }

/-- The per-field part of `init_argparse`: one flag per argument field, in
field order. -/
def synthesizeFlags (fs : List FieldSpec) : List ArgFlag :=
  (fs.filter (fun f => isArgumentField f)).map addArgument

/-- Modelled from the spec: `common.argparse_choices_pre_type` (in
`threatexchange/common.py`, not under src/) restricts a flag to exactly the
listed choice strings; flags without a choices list delegate acceptance to the
underlying type conversion, which this model does not restrict. -/
def flagAccepts (fl : ArgFlag) (s : String) : Bool :=
  match fl.choices with
  | some cs => cs.contains s
  | none => true

/-- The enable/disable tokens of one invocation: `enableTok = some none` is a
bare `--enable`, `some (some n)` is `--enable=n`, and `disableTok` is
`--disable`. -/
structure EnableDisableArgs where
  enableTok : Option (Option Int)
  disableTok : Bool
  deriving DecidableEq, Repr

/-- The mutually exclusive group declared in `init_argparse`: `--enable` has
`nargs=?`, `const=1`, `choices=[0,1]`; `--disable` stores the constant `0`
into the same `enable` destination; supplying both is an argparse parse error,
raised before any command object (and hence any edit set) is built. -/
def parseEnableDisable (a : EnableDisableArgs) : Except String (Option Int) :=
  if a.enableTok.isSome && a.disableTok then
    .error "argument --disable: not allowed with argument --enable"
  else if a.disableTok then .ok (some 0)
  else
    match a.enableTok with
    | none => .ok none
    | some none => .ok (some 1)
    | some (some n) => if n = 0 || n = 1 then .ok (some n) else .error "invalid choice"

/-- Failures a command run can end in. The first three model raw Python
exceptions escaping `config_cmd.py`; the rest model `CommandError` raises. -/
inductive CmdFailure where
  | jsonDecodeError
  | keyError (key : String)
  | typeErrorUnexpectedKeyword (key : String)
  | typeErrorMissingField (key : String)
  | duplicateCollab (ident : Value)
  | crossApiEdit (existingApi : Value)
  | noSuchConfig
  | noSuchCollab
  | moduleRequired
  | manifestLoadError (msg : String)
  | signalTypeMappingError
  | instantiationError (apiName : String)
  | fetcherMappingError
  deriving DecidableEq, Repr

/-- Modelled from the spec: the process exit code for a failure. The explicit
`CommandError(..., 2)` codes are from the source; the codes of errors whose
handling lives outside src/ (the CLI driver, `cli/exceptions.py` default
returncode) follow the spec exit-code table: user-input / validation errors
and extension-install failures exit 2, uncaught internal errors exit non-2
(a Python process exits 1 on an uncaught exception). -/
def cliExitCode : CmdFailure → Nat
  | .jsonDecodeError => 2
  | .keyError k => if k = "name" then 2 else 1
  | .typeErrorUnexpectedKeyword _ => 1
  | .typeErrorMissingField _ => 2
  | .duplicateCollab _ => 2
  | .crossApiEdit _ => 2
  | .noSuchConfig => 2
  | .noSuchCollab => 2
  | .moduleRequired => 2
  | .manifestLoadError _ => 2
  | .signalTypeMappingError => 2
  | .instantiationError _ => 2
  | .fetcherMappingError => 2

/-- The argparse namespace slice `_UpdateCollabCommand.__init__` consumes
(the per-field flag values are passed separately as a lookup function). -/
structure ParsedArgs where
  create : Bool
  collabName : String
  enable : Option Int
  isJson : Bool
  deriving DecidableEq, Repr

/-- Layer 1 of `__init__`: in JSON mode parse the positional as an object
(`json.loads`, a raised decode error modelled as `jsonDecodeError`), seed the
edit set from it, and take the identifier from its `name` key (`KeyError`
when absent); otherwise the identifier is the positional itself and the edit
set starts empty. -/
def jsonStage (parseJson : String → Option Dict) (isJson : Bool) (collabName : String) :
    Except CmdFailure (Value × Dict) :=
  if isJson then
    match parseJson collabName with
    | none => .error .jsonDecodeError
    | some d =>
      match dictGet d "name" with
      | none => .error (.keyError "name")
      | some v => .ok (v, d)
  else .ok (.str collabName, [])

/-- Layer 2 of `__init__`: create mode forces `name` (to the raw positional
argument), `enabled=True` and `api` (to the target API name). -/
def createStage (apiName : String) (create : Bool) (collabName : String) (ek : Dict) : Dict :=
  if create then
    dictSet (dictSet (dictSet ek "name" (.str collabName)) "enabled" (.bool true))
      "api" (.str apiName)
  else ek

/-- Layer 3 of `__init__`: a supplied enable/disable value overwrites
`enabled` with `bool(enable)`. -/
def enableStage (enable : Option Int) (ek : Dict) : Dict :=
  match enable with
  | some n => dictSet ek "enabled" (.bool (n != 0))
  | none => ek

/-- Layer 4 of `__init__`: walk the config class fields in order; a non-init
field named `api` pops `api` from the edit set (`KeyError` when absent);
ignored fields are skipped; any other init field whose parsed flag value is
not `None` overwrites its key. -/
def fieldLoop (fv : String → Option Value) :
    List FieldSpec → Dict → Except CmdFailure Dict
  | [], ek => .ok ek
  | g :: rest, ek =>
    if g.init = false then
      if g.name = "api" then
        match dictPop ek "api" with
        | none => .error (.keyError "api")
        | some ek2 => fieldLoop fv rest ek2
      else fieldLoop fv rest ek
    else if IGNORE_FIELDS.contains g.name then fieldLoop fv rest ek
    else
      match fv g.name with
      | some v => fieldLoop fv rest (dictSet ek g.name v)
      | none => fieldLoop fv rest ek

/-- `_UpdateCollabCommand.__init__` as a whole: resolve the identifier and the
edit set from the parsed arguments. -/
def resolveEditSet (apiName : String) (fs : List FieldSpec)
    (parseJson : String → Option Dict) (fv : String → Option Value)
    (args : ParsedArgs) : Except CmdFailure (Value × Dict) :=
  match jsonStage parseJson args.isJson args.collabName with
  | .error e => .error e
  | .ok (ident, ek) =>
    match fieldLoop fv fs (enableStage args.enable (createStage apiName args.create args.collabName ek)) with
    | .error e => .error e
    | .ok ek2 => .ok (ident, ek2)

/-- A persisted collaboration record: its `name` and `api` attributes plus the
remaining attribute dictionary (`name` and `api` may hold non-string values
when a JSON payload smuggles them in, so both are `Value`s). -/
structure Config where
  name : Value
  api : Value
  attrs : Dict
  deriving DecidableEq, Repr

/-- The collaboration store. -/
abbrev Store := List Config

/-- Modelled from the spec: `settings.get_collab(name)` (in
`cli/cli_config.py`, not under src/) — the store is a mapping from
collaboration name to its typed config record; look a record up by name. -/
def getCollab (store : Store) (ident : Value) : Option Config :=
  store.find? (fun c => c.name == ident)

/-- Modelled from the spec: `settings._state.update_collab(cfg)` (store
collaborator, not under src/) — upsert the record under its name. -/
def updateCollab (store : Store) (c : Config) : Store :=
  if store.any (fun x => x.name == c.name) then
    store.map (fun x => if x.name == c.name then c else x)
  else store ++ [c]

/-- Modelled from the spec: `settings._state.delete_collab(cfg)` (store
collaborator, not under src/) — remove the record stored under the name. -/
def deleteCollab (store : Store) (c : Config) : Store :=
  store.filter (fun x => x.name != c.name)

/-- `setattr(existing, name, val)` on a config record. -/
def setattrConfig (c : Config) (k : String) (v : Value) : Config :=
  if k = "name" then { c with name := v }
  else if k = "api" then { c with api := v }
  else { c with attrs := dictSet c.attrs k v }

/-- The update path of `execute`: assign every edit-set entry onto the
existing record. -/
def applyEditSet (c : Config) (ek : Dict) : Config :=
  ek.foldl (fun c kv => setattrConfig c kv.1 kv.2) c

/-- Modelled from the spec: `cfg_cls(**edit_kwargs)` — the config dataclasses
live outside src/. Construction raises `TypeError` on a keyword that is not a
constructor-settable field, or when a constructor-settable field without a
default (value or factory) is missing; otherwise the record holds the
supplied values (`api` falls back to the target API name, fields left to
their schema defaults are not tracked by the record model). -/
def mkCreateConfig (apiName : String) (fs : List FieldSpec) (ek : Dict) :
    Except CmdFailure Config :=
  match ek.find? (fun kv => !(fs.any (fun f => f.init && f.name == kv.1))) with
  | some kv => .error (.typeErrorUnexpectedKeyword kv.1)
  | none =>
    match fs.find? (fun f =>
        f.init && !f.hasDefault && !f.hasDefaultFactory && (dictGet ek f.name).isNone) with
    | some f => .error (.typeErrorMissingField f.name)
    | none =>
      .ok { name := (dictGet ek "name").getD (.str "")
            api := (dictGet ek "api").getD (.str apiName)
            attrs := ek.filter (fun kv => kv.1 != "name" && kv.1 != "api") }

/-- `_UpdateCollabCommand.execute`: look the identifier up; an existing record
with `--create` is a duplicate-name error; an existing record under a
different API is a cross-API error; otherwise assign the edit set and persist
via update. A missing record without `--create` is a no-such-config error;
with `--create`, construct the record and persist it. Failures return the
store untouched. -/
def executeUpdate (apiName : String) (fs : List FieldSpec) (create : Bool)
    (ident : Value) (ek : Dict) (store : Store) : Option CmdFailure × Store :=
  match getCollab store ident with
  | some existing =>
    if create then (some (.duplicateCollab ident), store)
    else if existing.api != Value.str apiName then
      (some (.crossApiEdit existing.api), store)
    else (none, updateCollab store (applyEditSet existing ek))
  | none =>
    if create then
      match mkCreateConfig apiName fs ek with
      | .error e => (some e, store)
      | .ok c => (none, updateCollab store c)
    else (some .noSuchConfig, store)

/-- The edit command end to end: resolve the edit set, then apply it to the
store; a resolution failure aborts before the store is consulted. -/
def runEditCommand (apiName : String) (fs : List FieldSpec)
    (parseJson : String → Option Dict) (fv : String → Option Value)
    (args : ParsedArgs) (store : Store) : Option CmdFailure × Store :=
  match resolveEditSet apiName fs parseJson fv args with
  | .error e => (some e, store)
  | .ok (ident, ek) => executeUpdate apiName fs args.create ident ek store

/-- `ConfigCollabDeleteCommand.execute`. -/
def executeDelete (ident : Value) (store : Store) : Option CmdFailure × Store :=
  match getCollab store ident with
  | none => (some .noSuchCollab, store)
  | some c => (none, deleteCollab store c)

/-- A candidate API type of an extension manifest: its name and whether its
zero-argument constructor succeeds. -/
structure ApiType where
  name : String
  constructOk : Bool
  deriving DecidableEq, Repr

/-- `ThreatExchangeExtensionManifest`: the declarative bundle an extension
module contributes. -/
structure Manifest where
  contentTypes : List String
  signalTypes : List String
  apis : List ApiType
  deriving DecidableEq, Repr

/-- The settings slice `execute_add` touches: the persisted extension module
list plus the current type/API registry. -/
structure ExtSettings where
  extensions : List String
  currentContentTypes : List String
  currentSignalTypes : List String
  currentApis : List ApiType
  deriving DecidableEq, Repr

/-- The probe loop of `execute_add`: construct each candidate API type with
zero arguments in order; the first raising constructor is re-raised as a
`CommandError` naming that API type; on success return the instances. -/
def probeApis : List ApiType → Except CmdFailure (List ApiType)
  | [] => .ok []
  | a :: rest =>
    if a.constructOk then
      match probeApis rest with
      | .error e => .error e
      | .ok l => .ok (a :: l)
    else .error (.instantiationError a.name)

/-- `set.add` on the persisted extension list. -/
def addToSet (l : List String) (m : String) : List String :=
  if l.contains m then l else l ++ [m]

/-- `ConfigExtensionsCommand.execute_add`. `loadManifest` models
`ThreatExchangeExtensionManifest.load_from_module_name` (a raised `ValueError`
becomes a `CommandError`); `typeMappingOk` and `fetcherMappingOk` model the
dry-run registry constructions `tx_meta.SignalTypeMapping` and
`tx_meta.FetcherMapping` (in `threatexchange/meta.py`, not under src/; per the
spec they surface duplicate-registration errors). Only after every check
passes is the module reference added to the persisted extension list. -/
def executeAdd (loadManifest : String → Except String Manifest)
    (typeMappingOk : List String → List String → Bool)
    (fetcherMappingOk : List ApiType → Bool)
    (module? : Option String) (s : ExtSettings) : Option CmdFailure × ExtSettings :=
  match module? with
  | none => (some .moduleRequired, s)
  | some m =>
    match loadManifest m with
    | .error msg => (some (.manifestLoadError msg), s)
    | .ok manifest =>
      if typeMappingOk (s.currentContentTypes ++ manifest.contentTypes)
          (s.currentSignalTypes ++ manifest.signalTypes) = false then
        (some .signalTypeMappingError, s)
      else
        match probeApis manifest.apis with
        | .error e => (some e, s)
        | .ok newApis =>
          if fetcherMappingOk (newApis ++ s.currentApis) = false then
            (some .fetcherMappingError, s)
          else (none, { s with extensions := addToSet s.extensions m })

theorem dictGet_set_self (d : Dict) (k : String) (v : Value) :
    dictGet (dictSet d k v) k = some v := by
  induction d with
  | nil => simp [dictSet, dictGet]
  | cons kv rest ih =>
    by_cases h : kv.1 = k
    · simp [dictSet, h, dictGet]
    · simp [dictSet, h, dictGet, ih]

theorem dictGet_set_ne (d : Dict) (k k' : String) (v : Value) (h : k' ≠ k) :
    dictGet (dictSet d k v) k' = dictGet d k' := by
  have hkk : ¬(k = k') := fun he => h he.symm
  induction d with
  | nil => simp [dictSet, dictGet, hkk]
  | cons kv rest ih =>
    by_cases hk : kv.1 = k
    · simp [dictSet, hk, dictGet, hkk]
    · simp [dictSet, hk, dictGet, ih]

theorem dictGet_eraseKey_self (d : Dict) (k : String) :
    dictGet (eraseKey d k) k = none := by
  induction d with
  | nil => simp [eraseKey, dictGet]
  | cons kv rest ih =>
    by_cases h : kv.1 = k
    · simpa [eraseKey, h] using ih
    · simp [eraseKey, h, dictGet, ih]

theorem dictGet_eraseKey_ne (d : Dict) (k k' : String) (h : k' ≠ k) :
    dictGet (eraseKey d k) k' = dictGet d k' := by
  have hkk : ¬(k = k') := fun he => h he.symm
  induction d with
  | nil => simp [eraseKey]
  | cons kv rest ih =>
    by_cases hk : kv.1 = k
    · simp [eraseKey, hk, dictGet, ih, hkk]
    · simp [eraseKey, hk, dictGet, ih]

theorem dictPop_some (d d' : Dict) (k : String) (h : dictPop d k = some d') :
    d' = eraseKey d k := by
  unfold dictPop at h
  cases hg : dictGet d k <;> rw [hg] at h
  · exact absurd h (by simp)
  · simpa using h.symm

theorem dictPop_none (d : Dict) (k : String) (h : dictGet d k = none) :
    dictPop d k = none := by
  unfold dictPop
  rw [h]

theorem name_ne_api_of_not_ignored {n : String}
    (h : IGNORE_FIELDS.contains n = false) : n ≠ "api" := by
  intro he
  subst he
  exact absurd h (by decide)

theorem bool_eq_true_of_ne_false {b : Bool} (h : ¬(b = false)) : b = true := by
  cases hb : b
  · exact absurd hb h
  · rfl

theorem bool_eq_false_of_ne_true {b : Bool} (h : ¬(b = true)) : b = false := by
  cases hb : b
  · rfl
  · exact absurd hb h

theorem fieldLoop_get_ignored (fv : String → Option Value) (k : String)
    (hk : IGNORE_FIELDS.contains k = true) (hka : k ≠ "api") :
    ∀ (l : List FieldSpec) (ek ek' : Dict),
      fieldLoop fv l ek = .ok ek' → dictGet ek' k = dictGet ek k := by
  intro l
  induction l with
  | nil =>
    intro ek ek' h
    simp only [fieldLoop, Except.ok.injEq] at h
    rw [h]
  | cons g rest ih =>
    intro ek ek' h
    by_cases hgi : g.init = false
    · by_cases hgn : g.name = "api"
      · cases hp : dictPop ek "api" with
        | none => simp [fieldLoop, hgi, hgn, hp] at h
        | some ek2 =>
          simp [fieldLoop, hgi, hgn, hp] at h
          rw [ih ek2 ek' h, dictPop_some ek ek2 "api" hp,
            dictGet_eraseKey_ne ek "api" k hka]
      · simp [fieldLoop, hgi, hgn] at h
        exact ih ek ek' h
    · have hgi' : g.init = true := bool_eq_true_of_ne_false hgi
      by_cases hgI : IGNORE_FIELDS.contains g.name = true
      · have hmemT : g.name ∈ IGNORE_FIELDS := by simpa using hgI
        simp [fieldLoop, hgi', hmemT] at h
        exact ih ek ek' h
      · have hgI' : IGNORE_FIELDS.contains g.name = false := bool_eq_false_of_ne_true hgI
        have hmemF : g.name ∉ IGNORE_FIELDS := by simpa using hgI'
        cases hfw : fv g.name with
        | none =>
          simp [fieldLoop, hgi', hmemF, hfw] at h
          exact ih ek ek' h
        | some w =>
          simp [fieldLoop, hgi', hmemF, hfw] at h
          have hne : k ≠ g.name := by
            intro he
            rw [← he, hk] at hgI'
            simp at hgI'
          rw [ih _ ek' h, dictGet_set_ne ek g.name k w hne]

theorem fieldLoop_flag_wins (fv : String → Option Value) (k : String) (v : Value)
    (hfv : fv k = some v) (hk : IGNORE_FIELDS.contains k = false) :
    ∀ (l : List FieldSpec) (ek ek' : Dict),
      fieldLoop fv l ek = .ok ek' →
      ((∃ g ∈ l, g.init = true ∧ IGNORE_FIELDS.contains g.name = false ∧ g.name = k) ∨
        dictGet ek k = some v) →
      dictGet ek' k = some v := by
  have hka : k ≠ "api" := name_ne_api_of_not_ignored hk
  intro l
  induction l with
  | nil =>
    intro ek ek' h hd
    simp only [fieldLoop, Except.ok.injEq] at h
    rcases hd with ⟨g, hg, _⟩ | hd
    · exact absurd hg (List.not_mem_nil g)
    · rw [h] at hd
      exact hd
  | cons g rest ih =>
    intro ek ek' h hd
    by_cases hgi : g.init = false
    · have hdrest : (∃ g' ∈ rest, g'.init = true ∧ IGNORE_FIELDS.contains g'.name = false ∧
          g'.name = k) ∨ dictGet ek k = some v := by
        rcases hd with ⟨g', hg', hp⟩ | hd
        · rcases List.mem_cons.mp hg' with hh | hh
          · subst hh
            rw [hgi] at hp
            exact absurd hp.1 (by simp)
          · exact Or.inl ⟨g', hh, hp⟩
        · exact Or.inr hd
      by_cases hgn : g.name = "api"
      · cases hp : dictPop ek "api" with
        | none => simp [fieldLoop, hgi, hgn, hp] at h
        | some ek2 =>
          simp [fieldLoop, hgi, hgn, hp] at h
          refine ih ek2 ek' h ?_
          rcases hdrest with hl | hr
          · exact Or.inl hl
          · refine Or.inr ?_
            rw [dictPop_some ek ek2 "api" hp, dictGet_eraseKey_ne ek "api" k hka]
            exact hr
      · simp [fieldLoop, hgi, hgn] at h
        exact ih ek ek' h hdrest
    · have hgi' : g.init = true := bool_eq_true_of_ne_false hgi
      by_cases hgI : IGNORE_FIELDS.contains g.name = true
      · have hmemT : g.name ∈ IGNORE_FIELDS := by simpa using hgI
        simp [fieldLoop, hgi', hmemT] at h
        refine ih ek ek' h ?_
        rcases hd with ⟨g', hg', hp⟩ | hd
        · rcases List.mem_cons.mp hg' with hh | hh
          · subst hh
            rw [hgI] at hp
            exact absurd hp.2.1 (by simp)
          · exact Or.inl ⟨g', hh, hp⟩
        · exact Or.inr hd
      · have hgI' : IGNORE_FIELDS.contains g.name = false := bool_eq_false_of_ne_true hgI
        have hmemF : g.name ∉ IGNORE_FIELDS := by simpa using hgI'
        cases hfw : fv g.name with
        | none =>
          simp [fieldLoop, hgi', hmemF, hfw] at h
          refine ih ek ek' h ?_
          rcases hd with ⟨g', hg', hp⟩ | hd
          · rcases List.mem_cons.mp hg' with hh | hh
            · subst hh
              by_cases hgk : g'.name = k
              · rw [hgk] at hfw
                rw [hfw] at hfv
                exact absurd hfv (by simp)
              · exact absurd hp.2.2 hgk
            · exact Or.inl ⟨g', hh, hp⟩
          · exact Or.inr hd
        | some w =>
          simp [fieldLoop, hgi', hmemF, hfw] at h
          by_cases hgk : g.name = k
          · have hwv : w = v := by
              rw [hgk] at hfw
              rw [hfw] at hfv
              exact (Option.some.injEq w v).mp hfv
            refine ih _ ek' h (Or.inr ?_)
            rw [hgk, hwv]
            exact dictGet_set_self ek k v
          · refine ih _ ek' h ?_
            rcases hd with ⟨g', hg', hp⟩ | hd
            · rcases List.mem_cons.mp hg' with hh | hh
              · subst hh
                exact absurd hp.2.2 hgk
              · exact Or.inl ⟨g', hh, hp⟩
            · refine Or.inr ?_
              rw [dictGet_set_ne ek g.name k w (fun he => hgk he.symm)]
              exact hd


theorem fieldLoop_api_stays_none (fv : String → Option Value) :
    ∀ (l : List FieldSpec) (ek ek' : Dict),
      fieldLoop fv l ek = .ok ek' → dictGet ek "api" = none →
      dictGet ek' "api" = none := by
  intro l
  induction l with
  | nil =>
    intro ek ek' h hn
    simp only [fieldLoop, Except.ok.injEq] at h
    rw [← h]
    exact hn
  | cons g rest ih =>
    intro ek ek' h hn
    by_cases hgi : g.init = false
    · by_cases hgn : g.name = "api"
      · simp [fieldLoop, hgi, hgn, dictPop_none ek "api" hn] at h
      · simp [fieldLoop, hgi, hgn] at h
        exact ih ek ek' h hn
    · have hgi' : g.init = true := bool_eq_true_of_ne_false hgi
      by_cases hgI : IGNORE_FIELDS.contains g.name = true
      · have hmemT : g.name ∈ IGNORE_FIELDS := by simpa using hgI
        simp [fieldLoop, hgi', hmemT] at h
        exact ih ek ek' h hn
      · have hgI' : IGNORE_FIELDS.contains g.name = false := bool_eq_false_of_ne_true hgI
        have hmemF : g.name ∉ IGNORE_FIELDS := by simpa using hgI'
        cases hfw : fv g.name with
        | none =>
          simp [fieldLoop, hgi', hmemF, hfw] at h
          exact ih ek ek' h hn
        | some w =>
          simp [fieldLoop, hgi', hmemF, hfw] at h
          refine ih _ ek' h ?_
          rw [dictGet_set_ne ek g.name "api" w
            (Ne.symm (name_ne_api_of_not_ignored hgI'))]
          exact hn

theorem fieldLoop_api_removed (fv : String → Option Value) :
    ∀ (l : List FieldSpec) (ek ek' : Dict),
      fieldLoop fv l ek = .ok ek' →
      (∃ g ∈ l, g.init = false ∧ g.name = "api") →
      dictGet ek' "api" = none := by
  intro l
  induction l with
  | nil =>
    intro ek ek' _ hex
    rcases hex with ⟨g, hg, _⟩
    exact absurd hg (List.not_mem_nil g)
  | cons g rest ih =>
    intro ek ek' h hex
    by_cases hgi : g.init = false
    · by_cases hgn : g.name = "api"
      · cases hp : dictPop ek "api" with
        | none => simp [fieldLoop, hgi, hgn, hp] at h
        | some ek2 =>
          simp [fieldLoop, hgi, hgn, hp] at h
          refine fieldLoop_api_stays_none fv rest ek2 ek' h ?_
          rw [dictPop_some ek ek2 "api" hp]
          exact dictGet_eraseKey_self ek "api"
      · simp [fieldLoop, hgi, hgn] at h
        refine ih ek ek' h ?_
        rcases hex with ⟨g', hg', hp2⟩
        rcases List.mem_cons.mp hg' with hh | hh
        · subst hh
          exact absurd hp2.2 hgn
        · exact ⟨g', hh, hp2⟩
    · have hgi' : g.init = true := bool_eq_true_of_ne_false hgi
      have hex' : ∃ g' ∈ rest, g'.init = false ∧ g'.name = "api" := by
        rcases hex with ⟨g', hg', hp2⟩
        rcases List.mem_cons.mp hg' with hh | hh
        · subst hh
          exact absurd hp2.1 (by simp [hgi'])
        · exact ⟨g', hh, hp2⟩
      by_cases hgI : IGNORE_FIELDS.contains g.name = true
      · have hmemT : g.name ∈ IGNORE_FIELDS := by simpa using hgI
        simp [fieldLoop, hgi', hmemT] at h
        exact ih ek ek' h hex'
      · have hgI' : IGNORE_FIELDS.contains g.name = false := bool_eq_false_of_ne_true hgI
        have hmemF : g.name ∉ IGNORE_FIELDS := by simpa using hgI'
        cases hfw : fv g.name with
        | none =>
          simp [fieldLoop, hgi', hmemF, hfw] at h
          exact ih ek ek' h hex'
        | some w =>
          simp [fieldLoop, hgi', hmemF, hfw] at h
          exact ih _ ek' h hex'

theorem fieldLoop_api_keyerror (fv : String → Option Value) :
    ∀ (l : List FieldSpec) (ek : Dict),
      dictGet ek "api" = none →
      (∃ g ∈ l, g.init = false ∧ g.name = "api") →
      fieldLoop fv l ek = .error (.keyError "api") := by
  intro l
  induction l with
  | nil =>
    intro ek _ hex
    rcases hex with ⟨g, hg, _⟩
    exact absurd hg (List.not_mem_nil g)
  | cons g rest ih =>
    intro ek hn hex
    by_cases hgi : g.init = false
    · by_cases hgn : g.name = "api"
      · simp [fieldLoop, hgi, hgn, dictPop_none ek "api" hn]
      · have hex' : ∃ g' ∈ rest, g'.init = false ∧ g'.name = "api" := by
          rcases hex with ⟨g', hg', hp2⟩
          rcases List.mem_cons.mp hg' with hh | hh
          · subst hh
            exact absurd hp2.2 hgn
          · exact ⟨g', hh, hp2⟩
        have hstep : fieldLoop fv (g :: rest) ek = fieldLoop fv rest ek := by
          simp [fieldLoop, hgi, hgn]
        rw [hstep]
        exact ih ek hn hex'
    · have hgi' : g.init = true := bool_eq_true_of_ne_false hgi
      have hex' : ∃ g' ∈ rest, g'.init = false ∧ g'.name = "api" := by
        rcases hex with ⟨g', hg', hp2⟩
        rcases List.mem_cons.mp hg' with hh | hh
        · subst hh
          exact absurd hp2.1 (by simp [hgi'])
        · exact ⟨g', hh, hp2⟩
      by_cases hgI : IGNORE_FIELDS.contains g.name = true
      · have hmemT : g.name ∈ IGNORE_FIELDS := by simpa using hgI
        have hstep : fieldLoop fv (g :: rest) ek = fieldLoop fv rest ek := by
          simp [fieldLoop, hgi', hmemT]
        rw [hstep]
        exact ih ek hn hex'
      · have hgI' : IGNORE_FIELDS.contains g.name = false := bool_eq_false_of_ne_true hgI
        have hmemF : g.name ∉ IGNORE_FIELDS := by simpa using hgI'
        cases hfw : fv g.name with
        | none =>
          have hstep : fieldLoop fv (g :: rest) ek = fieldLoop fv rest ek := by
            simp [fieldLoop, hgi', hmemF, hfw]
          rw [hstep]
          exact ih ek hn hex'
        | some w =>
          have hstep : fieldLoop fv (g :: rest) ek
              = fieldLoop fv rest (dictSet ek g.name w) := by
            simp [fieldLoop, hgi', hmemF, hfw]
          rw [hstep]
          refine ih _ ?_ hex'
          rw [dictGet_set_ne ek g.name "api" w
            (Ne.symm (name_ne_api_of_not_ignored hgI'))]
          exact hn

theorem probeApis_ok (l : List ApiType) :
    (∀ a ∈ l, a.constructOk = true) → probeApis l = .ok l := by
  induction l with
  | nil => intro _; rfl
  | cons a rest ih =>
    intro h
    have ha := h a (List.mem_cons_self a rest)
    have hr := ih (fun b hb => h b (List.mem_cons_of_mem a hb))
    simp [probeApis, ha, hr]

theorem probeApis_error (l : List ApiType)
    (hex : ∃ a ∈ l, a.constructOk = false) :
    ∃ a0, a0 ∈ l ∧ a0.constructOk = false ∧
      probeApis l = .error (.instantiationError a0.name) := by
  induction l with
  | nil =>
    rcases hex with ⟨a, ha, _⟩
    exact absurd ha (List.not_mem_nil a)
  | cons a rest ih =>
    by_cases hc : a.constructOk = true
    · have hex' : ∃ b ∈ rest, b.constructOk = false := by
        rcases hex with ⟨b, hb, hbc⟩
        rcases List.mem_cons.mp hb with hh | hh
        · subst hh
          rw [hc] at hbc
          exact absurd hbc (by simp)
        · exact ⟨b, hh, hbc⟩
      rcases ih hex' with ⟨a0, ha0, hc0, hp⟩
      refine ⟨a0, List.mem_cons_of_mem a ha0, hc0, ?_⟩
      simp [probeApis, hc, hp]
    · have hc' : a.constructOk = false := bool_eq_false_of_ne_true hc
      exact ⟨a, List.mem_cons_self a rest, hc', by simp [probeApis, hc']⟩


theorem string_append_cancel_left (a b c : String) (h : a ++ b = a ++ c) : b = c := by
  obtain ⟨da⟩ := a
  obtain ⟨db⟩ := b
  obtain ⟨dc⟩ := c
  have h2 : String.mk (da ++ db) = String.mk (da ++ dc) := h
  injection h2 with h3
  exact congrArg String.mk (List.append_cancel_left h3)

theorem addArgument_flagName (f : FieldSpec) :
    (addArgument f).flagName = "--" ++ dashName f.name := rfl

theorem addArgument_required (f : FieldSpec) :
    (addArgument f).required = (!f.hasDefault && !f.hasDefaultFactory) := rfl

theorem flag_match_iff (g : FieldSpec) (t : String) :
    (((addArgument g).flagName == "--" ++ t) && isArgumentField g) = true ↔
      (dashName g.name = t ∧ isArgumentField g = true) := by
  rw [Bool.and_eq_true, beq_iff_eq, addArgument_flagName]
  constructor
  · rintro ⟨h1, h2⟩
    exact ⟨string_append_cancel_left "--" (dashName g.name) t h1, h2⟩
  · rintro ⟨h1, h2⟩
    exact ⟨by rw [h1], h2⟩

theorem countP_flag (t : String) :
    ∀ (fs : List FieldSpec),
      (fs.map (fun f => dashName f.name)).Nodup →
      ∀ f ∈ fs, dashName f.name = t →
      fs.countP (fun g => ((addArgument g).flagName == "--" ++ t) && isArgumentField g)
        = (if isArgumentField f then 1 else 0) := by
  intro fs
  induction fs with
  | nil =>
    intro _ f hf _
    exact absurd hf (List.not_mem_nil f)
  | cons g rest ih =>
    intro hnd f hf ht
    have hnd' := List.nodup_cons.mp hnd
    rcases List.mem_cons.mp hf with hh | hh
    · subst hh
      have hzero : rest.countP
          (fun g => ((addArgument g).flagName == "--" ++ t) && isArgumentField g) = 0 := by
        rw [List.countP_eq_zero]
        intro b hb hP
        have hbt := (flag_match_iff b t).mp hP
        refine hnd'.1 ?_
        show dashName f.name ∈ rest.map (fun f => dashName f.name)
        rw [ht, ← hbt.1]
        exact List.mem_map_of_mem (fun f => dashName f.name) hb
      rw [List.countP_cons, hzero, Nat.zero_add]
      by_cases ha : isArgumentField f = true
      · rw [if_pos ((flag_match_iff f t).mpr ⟨ht, ha⟩), if_pos ha]
      · rw [if_neg (fun hc => ha ((flag_match_iff f t).mp hc).2), if_neg ha]
    · have hgne : ¬(((addArgument g).flagName == "--" ++ t) && isArgumentField g) = true := by
        intro hP
        have hgt := (flag_match_iff g t).mp hP
        refine hnd'.1 ?_
        show dashName g.name ∈ rest.map (fun f => dashName f.name)
        rw [hgt.1, ← ht]
        exact List.mem_map_of_mem (fun f => dashName f.name) hh
      rw [List.countP_cons, if_neg hgne, Nat.add_zero, ih hnd'.2 f hh ht]

/-- Claim C6: every constructor-settable field outside the ignore set
`{name, api, enabled}` yields exactly one flag in the synthesized per-field
command surface, required exactly when the field has neither a default value
nor a default factory; non-settable or ignored fields yield no flag. -/
theorem c6_flag_synthesis (fs : List FieldSpec)
    (hnd : (fs.map (fun f => dashName f.name)).Nodup)
    (f : FieldSpec) (hf : f ∈ fs) :
    ((synthesizeFlags fs).countP (fun fl => fl.flagName == "--" ++ dashName f.name)
      = (if isArgumentField f then 1 else 0)) ∧
    (∀ fl ∈ synthesizeFlags fs, fl.flagName = "--" ++ dashName f.name →
      fl.required = (!f.hasDefault && !f.hasDefaultFactory)) := by
  constructor
  · rw [synthesizeFlags, List.countP_map, List.countP_filter]
    exact countP_flag (dashName f.name) fs hnd f hf rfl
  · intro fl hfl hname
    rcases List.mem_map.mp hfl with ⟨g, hg, hfg⟩
    rcases List.mem_filter.mp hg with ⟨hgmem, hgarg⟩
    have hdash : dashName g.name = dashName f.name := by
      refine string_append_cancel_left "--" (dashName g.name) (dashName f.name) ?_
      rw [← addArgument_flagName, hfg, hname]
    have hgf : g = f :=
      List.inj_on_of_nodup_map hnd hgmem hf hdash
    rw [← hfg, addArgument_required, hgf]

/-- Claim C7, counterexample to the claim as stated: an enum-typed field that
declares explicit `metavar` metadata gets that metavar, not the bracketed
member list. -/
theorem c7_counterexample :
    (FieldSpec.mk "mode" true true false (.simple ⟨"SampleEnum", some ["RED", "BLUE"]⟩)
        (some "MODE") none).fieldType.target.enumMembers = some ["RED", "BLUE"] ∧
    (addArgument (FieldSpec.mk "mode" true true false
        (.simple ⟨"SampleEnum", some ["RED", "BLUE"]⟩) (some "MODE") none)).metavar
      ≠ "[" ++ String.intercalate "," ["RED", "BLUE"] ++ "]" := by
  exact ⟨rfl, by decide⟩

/-- Claim C7 (amended): an enum-typed field without explicit `metavar`
metadata gets the bracketed, comma-joined member list as its metavar; and the
flag of an enum-typed field accepts exactly the member names, whatever the
metadata says. -/
theorem c7_enum_flags (f : FieldSpec) (ms : List String)
    (he : f.fieldType.target.enumMembers = some ms) :
    (f.metadataMetavar = none →
      (addArgument f).metavar = "[" ++ String.intercalate "," ms ++ "]") ∧
    (∀ s : String, flagAccepts (addArgument f) s = true ↔ s ∈ ms) := by
  constructor
  · intro hm
    simp [addArgument, he, hm]
  · intro s
    simp [addArgument, flagAccepts, he]

/-- Claim C7, witness: a concrete enum field without metadata. -/
theorem c7_enum_flags_witness :
    (FieldSpec.mk "mode" true true false (.simple ⟨"SampleEnum", some ["RED", "BLUE"]⟩)
        none none).fieldType.target.enumMembers = some ["RED", "BLUE"] ∧
    (addArgument (FieldSpec.mk "mode" true true false
        (.simple ⟨"SampleEnum", some ["RED", "BLUE"]⟩) none none)).metavar
      = "[" ++ String.intercalate "," ["RED", "BLUE"] ++ "]" ∧
    flagAccepts (addArgument (FieldSpec.mk "mode" true true false
        (.simple ⟨"SampleEnum", some ["RED", "BLUE"]⟩) none none)) "RED" = true := by
  refine ⟨rfl, ?_, ?_⟩
  · exact (c7_enum_flags
      (FieldSpec.mk "mode" true true false
        (.simple ⟨"SampleEnum", some ["RED", "BLUE"]⟩) none none)
      ["RED", "BLUE"] rfl).1 rfl
  · exact ((c7_enum_flags
      (FieldSpec.mk "mode" true true false
        (.simple ⟨"SampleEnum", some ["RED", "BLUE"]⟩) none none)
      ["RED", "BLUE"] rfl).2 "RED").mpr (by decide)

/-- Claim C6, witness: a two-field schema (the ignored `name` field and a
required `privacy_group` field). -/
theorem c6_flag_synthesis_witness :
    (synthesizeFlags
        [FieldSpec.mk "name" true false false (.simple ⟨"str", none⟩) none none,
          FieldSpec.mk "privacy_group" true false false (.simple ⟨"int", none⟩) none none]).countP
      (fun fl => fl.flagName == "--" ++ dashName "privacy_group") = 1 := by
  have h := (c6_flag_synthesis
    [FieldSpec.mk "name" true false false (.simple ⟨"str", none⟩) none none,
      FieldSpec.mk "privacy_group" true false false (.simple ⟨"int", none⟩) none none]
    (by decide)
    (FieldSpec.mk "privacy_group" true false false (.simple ⟨"int", none⟩) none none)
    (by decide)).1
  simpa using h

/-- Claim C8: `--enable` and `--disable` are mutually exclusive at parse time
(supplying both is an argparse error, before any edit set exists); a bare
`--enable` parses to `1` and makes the edit set enable the config, while
`--disable` parses to `0` and forces it disabled. -/
theorem c8_enable_disable (a : EnableDisableArgs) (ek : Dict) :
    (a.enableTok.isSome = true → a.disableTok = true →
      ∃ msg, parseEnableDisable a = .error msg) ∧
    (parseEnableDisable { enableTok := some none, disableTok := false } = .ok (some 1) ∧
      dictGet (enableStage (some 1) ek) "enabled" = some (.bool true)) ∧
    (parseEnableDisable { enableTok := none, disableTok := true } = .ok (some 0) ∧
      dictGet (enableStage (some 0) ek) "enabled" = some (.bool false)) := by
  refine ⟨?_, ⟨rfl, ?_⟩, ⟨rfl, ?_⟩⟩
  · intro h1 h2
    refine ⟨"argument --disable: not allowed with argument --enable", ?_⟩
    simp [parseEnableDisable, h1, h2]
  · have h := dictGet_set_self ek "enabled" (.bool ((1 : Int) != 0))
    simpa [enableStage] using h
  · have h := dictGet_set_self ek "enabled" (.bool ((0 : Int) != 0))
    simpa [enableStage] using h

/-- Claim C8, witness: both flags supplied on a concrete invocation is a parse
error. -/
theorem c8_enable_disable_witness :
    (EnableDisableArgs.mk (some none) true).enableTok.isSome = true ∧
    ∃ msg, parseEnableDisable (EnableDisableArgs.mk (some none) true) = .error msg := by
  exact ⟨rfl, (c8_enable_disable (EnableDisableArgs.mk (some none) true) []).1 rfl rfl⟩

/-- Claim C5: in JSON mode the positional is parsed as a JSON object; a
malformed payload raises the decode error and a payload without a `name` key
raises the `name` key error, both reported with exit code 2; a well-formed
payload with a `name` key seeds the edit set from the object and takes the
identifier from that key. -/
theorem c5_json_mode (apiName : String) (fs : List FieldSpec)
    (parseJson : String → Option Dict) (fv : String → Option Value)
    (args : ParsedArgs) (hj : args.isJson = true) :
    (parseJson args.collabName = none →
      resolveEditSet apiName fs parseJson fv args = .error .jsonDecodeError ∧
      cliExitCode .jsonDecodeError = 2) ∧
    (∀ d : Dict, parseJson args.collabName = some d → dictGet d "name" = none →
      resolveEditSet apiName fs parseJson fv args = .error (.keyError "name") ∧
      cliExitCode (.keyError "name") = 2) ∧
    (∀ (d : Dict) (v : Value), parseJson args.collabName = some d →
      dictGet d "name" = some v →
      jsonStage parseJson args.isJson args.collabName = .ok (v, d)) := by
  refine ⟨?_, ?_, ?_⟩
  · intro hp
    exact ⟨by simp [resolveEditSet, jsonStage, hj, hp], rfl⟩
  · intro d hp hn
    exact ⟨by simp [resolveEditSet, jsonStage, hj, hp, hn], rfl⟩
  · intro d v hp hn
    simp [jsonStage, hj, hp, hn]

/-- Claim C5, witness: a concrete malformed payload. -/
theorem c5_json_mode_witness :
    (ParsedArgs.mk false "not json" none true).isJson = true ∧
    resolveEditSet "fb_threatexchange" [] (fun _ => none) (fun _ => none)
      (ParsedArgs.mk false "not json" none true) = .error .jsonDecodeError := by
  refine ⟨rfl, ?_⟩
  exact ((c5_json_mode "fb_threatexchange" [] (fun _ => none) (fun _ => none)
    (ParsedArgs.mk false "not json" none true) rfl).1 rfl).1

/-- Claim C1: in a successful resolution, an individually supplied typed flag
overwrites every earlier layer for its field (in particular a JSON payload
value for the same field), and a supplied enable/disable value determines the
final `enabled` entry (no typed flag can touch it). -/
theorem c1_flag_precedence (apiName : String) (fs : List FieldSpec)
    (parseJson : String → Option Dict) (fv : String → Option Value)
    (args : ParsedArgs) (ident : Value) (ek : Dict)
    (hok : resolveEditSet apiName fs parseJson fv args = .ok (ident, ek)) :
    (∀ f ∈ fs, f.init = true → IGNORE_FIELDS.contains f.name = false →
      ∀ v : Value, fv f.name = some v → dictGet ek f.name = some v) ∧
    (∀ n : Int, args.enable = some n →
      dictGet ek "enabled" = some (.bool (n != 0))) := by
  simp only [resolveEditSet] at hok
  cases hjs : jsonStage parseJson args.isJson args.collabName <;> rw [hjs] at hok
  · simp at hok
  · rename_i p
    obtain ⟨i0, ek0⟩ := p
    replace hok : (match fieldLoop fv fs
        (enableStage args.enable (createStage apiName args.create args.collabName ek0)) with
      | Except.error e => (Except.error e : Except CmdFailure (Value × Dict))
      | Except.ok ek2 => Except.ok (i0, ek2)) = Except.ok (ident, ek) := hok
    cases hfl : fieldLoop fv fs
        (enableStage args.enable (createStage apiName args.create args.collabName ek0)) <;>
      rw [hfl] at hok
    · simp at hok
    · rename_i ek2
      simp only [Except.ok.injEq, Prod.mk.injEq] at hok
      obtain ⟨h1, h2⟩ := hok
      subst h2
      constructor
      · intro f hf hi hI v hv
        exact fieldLoop_flag_wins fv f.name v hv hI fs _ ek2 hfl
          (Or.inl ⟨f, hf, hi, hI, rfl⟩)
      · intro n hn
        rw [fieldLoop_get_ignored fv "enabled" (by decide) (by decide) fs _ ek2 hfl, hn]
        simp [enableStage, dictGet_set_self]

/-- Claim C1, witness: the spec example — JSON payload
`{"name": "a", "enabled": false, "x": 1}` with `--x=2 --enable` resolves to
an edit set with `enabled = true` and `x = 2`. -/
theorem c1_flag_precedence_witness :
    resolveEditSet "fb_threatexchange"
        [FieldSpec.mk "name" true false false (.simple ⟨"str", none⟩) none none,
          FieldSpec.mk "api" true true false (.simple ⟨"str", none⟩) none none,
          FieldSpec.mk "enabled" true true false (.simple ⟨"bool", none⟩) none none,
          FieldSpec.mk "x" true true false (.simple ⟨"int", none⟩) none none]
        (fun _ => some [("name", .str "a"), ("enabled", .bool false), ("x", .int 1)])
        (fun s => if s = "x" then some (.int 2) else none)
        (ParsedArgs.mk false "\x7b\"name\": \"a\", \"enabled\": false, \"x\": 1\x7d"
          (some 1) true)
      = .ok (.str "a", [("name", .str "a"), ("enabled", .bool true), ("x", .int 2)]) ∧
    dictGet [("name", Value.str "a"), ("enabled", Value.bool true), ("x", Value.int 2)] "x"
      = some (.int 2) ∧
    dictGet [("name", Value.str "a"), ("enabled", Value.bool true), ("x", Value.int 2)]
      "enabled" = some (.bool true) := by
  have hok : resolveEditSet "fb_threatexchange"
      [FieldSpec.mk "name" true false false (.simple ⟨"str", none⟩) none none,
        FieldSpec.mk "api" true true false (.simple ⟨"str", none⟩) none none,
        FieldSpec.mk "enabled" true true false (.simple ⟨"bool", none⟩) none none,
        FieldSpec.mk "x" true true false (.simple ⟨"int", none⟩) none none]
      (fun _ => some [("name", .str "a"), ("enabled", .bool false), ("x", .int 1)])
      (fun s => if s = "x" then some (.int 2) else none)
      (ParsedArgs.mk false "\x7b\"name\": \"a\", \"enabled\": false, \"x\": 1\x7d"
        (some 1) true)
      = .ok (.str "a", [("name", .str "a"), ("enabled", .bool true), ("x", .int 2)]) := by
    rfl
  have hc := c1_flag_precedence _ _ _ _ _ _ _ hok
  refine ⟨hok, ?_, ?_⟩
  · have hx := hc.1 (FieldSpec.mk "x" true true false (.simple ⟨"int", none⟩) none none)
      (by decide) rfl (by decide) (.int 2) rfl
    simpa using hx
  · have he := hc.2 1 rfl
    simpa using he

/-- Claim C4, counterexample to the claim as stated: combining `--create` with
`--json`, the create layer forces `name` to the raw positional argument (the
whole JSON text), not to the identifier derived from the payload `name` key. -/
theorem c4_counterexample :
    jsonStage
        (fun s => if s = "\x7b\"name\": \"a\"\x7d"
          then some [("name", Value.str "a")] else none)
        true "\x7b\"name\": \"a\"\x7d"
      = .ok (Value.str "a", [("name", Value.str "a")]) ∧
    dictGet (createStage "fb_threatexchange" true "\x7b\"name\": \"a\"\x7d"
        [("name", Value.str "a")]) "name"
      ≠ some (Value.str "a") := by
  exact ⟨rfl, by decide⟩

/-- Claim C4 (amended): in create mode, after the create layer the edit set
holds `name` = the raw positional argument (which is the resolved identifier
whenever JSON mode is off; under `--json` it is the raw JSON text),
`enabled = true` and `api` = the target API name, before the enable/disable
and typed-flag layers apply. -/
theorem c4_create_forced_fields (apiName : String) (args : ParsedArgs) (ek : Dict)
    (parseJson : String → Option Dict) (hc : args.create = true) :
    dictGet (createStage apiName args.create args.collabName ek) "name"
      = some (.str args.collabName) ∧
    dictGet (createStage apiName args.create args.collabName ek) "enabled"
      = some (.bool true) ∧
    dictGet (createStage apiName args.create args.collabName ek) "api"
      = some (.str apiName) ∧
    (args.isJson = false →
      jsonStage parseJson args.isJson args.collabName = .ok (.str args.collabName, [])) := by
  rw [createStage, if_pos hc]
  refine ⟨?_, ?_, ?_, ?_⟩
  · rw [dictGet_set_ne _ "api" "name" _ (by decide),
      dictGet_set_ne _ "enabled" "name" _ (by decide), dictGet_set_self]
  · rw [dictGet_set_ne _ "api" "enabled" _ (by decide), dictGet_set_self]
  · rw [dictGet_set_self]
  · intro hnj
    simp [jsonStage, hnj]

/-- Claim C4, witness: a concrete non-JSON create invocation. -/
theorem c4_create_forced_fields_witness :
    (ParsedArgs.mk true "my_collab" none false).create = true ∧
    dictGet (createStage "fb_threatexchange" (ParsedArgs.mk true "my_collab" none false).create
        "my_collab" []) "name" = some (.str "my_collab") ∧
    dictGet (createStage "fb_threatexchange" (ParsedArgs.mk true "my_collab" none false).create
        "my_collab" []) "enabled" = some (.bool true) ∧
    dictGet (createStage "fb_threatexchange" (ParsedArgs.mk true "my_collab" none false).create
        "my_collab" []) "api" = some (.str "fb_threatexchange") := by
  have h := c4_create_forced_fields "fb_threatexchange"
    (ParsedArgs.mk true "my_collab" none false) [] (fun _ => none) rfl
  exact ⟨rfl, h.1, h.2.1, h.2.2.1⟩

/-- Claim C10: when the schema declares `api` as a non-init field, the
resolver pops `api` out of every edit set it successfully builds; and a plain
edit invocation (no create mode, and either no JSON payload or one without an
`api` key) raises an unhandled `KeyError` during resolution, before the store
is consulted (the command aborts with the store untouched). -/
theorem c10_api_pop (apiName : String) (fs : List FieldSpec)
    (parseJson : String → Option Dict) (fv : String → Option Value)
    (args : ParsedArgs) (store : Store) (f : FieldSpec)
    (hf : f ∈ fs) (hfn : f.name = "api") (hfi : f.init = false) :
    (∀ (ident : Value) (ek : Dict),
      resolveEditSet apiName fs parseJson fv args = .ok (ident, ek) →
      dictGet ek "api" = none) ∧
    (args.create = false → args.isJson = false →
      runEditCommand apiName fs parseJson fv args store
        = (some (.keyError "api"), store)) ∧
    (args.create = false → ∀ (d : Dict) (v : Value), args.isJson = true →
      parseJson args.collabName = some d → dictGet d "name" = some v →
      dictGet d "api" = none →
      runEditCommand apiName fs parseJson fv args store
        = (some (.keyError "api"), store)) := by
  have hex : ∃ g ∈ fs, g.init = false ∧ g.name = "api" := ⟨f, hf, hfi, hfn⟩
  refine ⟨?_, ?_, ?_⟩
  · intro ident ek hok
    simp only [resolveEditSet] at hok
    cases hjs : jsonStage parseJson args.isJson args.collabName <;> rw [hjs] at hok
    · simp at hok
    · rename_i p
      obtain ⟨i0, ek0⟩ := p
      replace hok : (match fieldLoop fv fs
          (enableStage args.enable (createStage apiName args.create args.collabName ek0)) with
        | Except.error e => (Except.error e : Except CmdFailure (Value × Dict))
        | Except.ok ek2 => Except.ok (i0, ek2)) = Except.ok (ident, ek) := hok
      cases hfl : fieldLoop fv fs
          (enableStage args.enable (createStage apiName args.create args.collabName ek0)) <;>
        rw [hfl] at hok
      · simp at hok
      · rename_i ek2
        simp only [Except.ok.injEq, Prod.mk.injEq] at hok
        rw [← hok.2]
        exact fieldLoop_api_removed fv fs _ ek2 hfl hex
  · intro hc hnj
    have hstart : dictGet (enableStage args.enable
        (createStage apiName args.create args.collabName ([] : Dict))) "api" = none := by
      rw [createStage, if_neg (by simp [hc])]
      cases hn : args.enable with
      | none => simp [enableStage, dictGet]
      | some n => simp [enableStage, dictSet, dictGet]
    have herr := fieldLoop_api_keyerror fv fs _ hstart hex
    simp [runEditCommand, resolveEditSet, jsonStage, hnj, herr]
  · intro hc d v hj hp hn hapi
    have hstart : dictGet (enableStage args.enable
        (createStage apiName args.create args.collabName d)) "api" = none := by
      rw [createStage, if_neg (by simp [hc])]
      cases hen : args.enable with
      | none => simpa [enableStage] using hapi
      | some n =>
        rw [enableStage, dictGet_set_ne d "enabled" "api" _ (by decide)]
        exact hapi
    have herr := fieldLoop_api_keyerror fv fs _ hstart hex
    simp [runEditCommand, resolveEditSet, jsonStage, hj, hp, hn, herr]

/-- Claim C10, witness: a one-field schema whose `api` field is non-init, on a
plain edit invocation over an empty store. -/
theorem c10_api_pop_witness :
    (FieldSpec.mk "api" false true false (.simple ⟨"str", none⟩) none none)
      ∈ [FieldSpec.mk "api" false true false (.simple ⟨"str", none⟩) none none] ∧
    runEditCommand "fb_threatexchange"
        [FieldSpec.mk "api" false true false (.simple ⟨"str", none⟩) none none]
        (fun _ => none) (fun _ => none) (ParsedArgs.mk false "c" none false) []
      = (some (.keyError "api"), []) := by
  refine ⟨by decide, ?_⟩
  exact (c10_api_pop "fb_threatexchange"
    [FieldSpec.mk "api" false true false (.simple ⟨"str", none⟩) none none]
    (fun _ => none) (fun _ => none) (ParsedArgs.mk false "c" none false) []
    (FieldSpec.mk "api" false true false (.simple ⟨"str", none⟩) none none)
    (by decide) rfl rfl).2.1 rfl rfl

/-- Claim C2, counterexample to the claim as stated: a create invocation whose
edit set carries a key that is not a constructor field (reachable through a
JSON payload) is not one of the three validation cases, yet it does not
persist — dataclass construction raises a `TypeError`. -/
theorem c2_counterexample :
    getCollab [] (Value.str "x") = none ∧
    executeUpdate "fb_threatexchange"
        [FieldSpec.mk "name" true false false (.simple ⟨"str", none⟩) none none]
        true (Value.str "x") [("name", Value.str "x"), ("bogus", Value.int 1)] []
      = (some (CmdFailure.typeErrorUnexpectedKeyword "bogus"), []) := by
  exact ⟨rfl, by decide⟩

/-- Claim C2 (amended): the apply step fails with a validation error (exit
code 2) exactly on duplicate-name create, cross-API edit, and
missing-record edit; in every other case it persists via update, or via
create when the edit set is constructible for the target schema — a
non-constructible edit set (an unknown key or a missing no-default field)
instead fails dataclass construction and persists nothing. -/
theorem c2_apply_cases (apiName : String) (fs : List FieldSpec) (create : Bool)
    (ident : Value) (ek : Dict) (store : Store) :
    (∀ c : Config, getCollab store ident = some c → create = true →
      executeUpdate apiName fs create ident ek store
        = (some (.duplicateCollab ident), store) ∧
      cliExitCode (.duplicateCollab ident) = 2) ∧
    (∀ c : Config, getCollab store ident = some c → create = false →
      c.api ≠ .str apiName →
      executeUpdate apiName fs create ident ek store
        = (some (.crossApiEdit c.api), store) ∧
      cliExitCode (.crossApiEdit c.api) = 2) ∧
    (getCollab store ident = none → create = false →
      executeUpdate apiName fs create ident ek store = (some .noSuchConfig, store) ∧
      cliExitCode .noSuchConfig = 2) ∧
    (∀ c : Config, getCollab store ident = some c → create = false →
      c.api = .str apiName →
      executeUpdate apiName fs create ident ek store
        = (none, updateCollab store (applyEditSet c ek))) ∧
    (∀ c : Config, getCollab store ident = none → create = true →
      mkCreateConfig apiName fs ek = .ok c →
      executeUpdate apiName fs create ident ek store = (none, updateCollab store c)) ∧
    (∀ e : CmdFailure, getCollab store ident = none → create = true →
      mkCreateConfig apiName fs ek = .error e →
      executeUpdate apiName fs create ident ek store = (some e, store)) := by
  refine ⟨?_, ?_, ?_, ?_, ?_, ?_⟩
  · intro c hg hcr
    exact ⟨by simp [executeUpdate, hg, hcr], rfl⟩
  · intro c hg hcr hne
    exact ⟨by simp [executeUpdate, hg, hcr, hne], rfl⟩
  · intro hg hcr
    exact ⟨by simp [executeUpdate, hg, hcr], rfl⟩
  · intro c hg hcr heq
    simp [executeUpdate, hg, hcr, heq]
  · intro c hg hcr hm
    simp [executeUpdate, hg, hcr, hm]
  · intro e hg hcr hm
    simp [executeUpdate, hg, hcr, hm]

/-- Claim C2, witness: a duplicate-name create against a one-record store. -/
theorem c2_apply_cases_witness :
    getCollab [Config.mk (Value.str "x") (Value.str "fb_threatexchange") []]
        (Value.str "x")
      = some (Config.mk (Value.str "x") (Value.str "fb_threatexchange") []) ∧
    executeUpdate "fb_threatexchange" [] true (Value.str "x") []
        [Config.mk (Value.str "x") (Value.str "fb_threatexchange") []]
      = (some (.duplicateCollab (Value.str "x")),
          [Config.mk (Value.str "x") (Value.str "fb_threatexchange") []]) := by
  refine ⟨rfl, ?_⟩
  exact ((c2_apply_cases "fb_threatexchange" [] true (Value.str "x") []
    [Config.mk (Value.str "x") (Value.str "fb_threatexchange") []]).1
    (Config.mk (Value.str "x") (Value.str "fb_threatexchange") []) rfl rfl).1

/-- Claim C3: every failing run of the edit, delete, or extension-add command
leaves the persisted state (the collab store, respectively the settings with
the persisted extension list) exactly as it was. -/
theorem c3_failure_preserves_state :
    (∀ (apiName : String) (fs : List FieldSpec) (create : Bool) (ident : Value)
        (ek : Dict) (store : Store) (e : CmdFailure) (store' : Store),
      executeUpdate apiName fs create ident ek store = (some e, store') →
      store' = store) ∧
    (∀ (ident : Value) (store : Store) (e : CmdFailure) (store' : Store),
      executeDelete ident store = (some e, store') → store' = store) ∧
    (∀ (loadManifest : String → Except String Manifest)
        (typeMappingOk : List String → List String → Bool)
        (fetcherMappingOk : List ApiType → Bool) (module? : Option String)
        (s : ExtSettings) (e : CmdFailure) (s' : ExtSettings),
      executeAdd loadManifest typeMappingOk fetcherMappingOk module? s = (some e, s') →
      s' = s) := by
  refine ⟨?_, ?_, ?_⟩
  · intro apiName fs create ident ek store e store' h
    cases hg : getCollab store ident with
    | none =>
      cases hcr : create with
      | false =>
        simp [executeUpdate, hg, hcr] at h
        exact h.2.symm
      | true =>
        cases hm : mkCreateConfig apiName fs ek with
        | error e2 =>
          simp [executeUpdate, hg, hcr, hm] at h
          exact h.2.symm
        | ok c =>
          simp [executeUpdate, hg, hcr, hm] at h
    | some c =>
      cases hcr : create with
      | true =>
        simp [executeUpdate, hg, hcr] at h
        exact h.2.symm
      | false =>
        by_cases ha : c.api = Value.str apiName
        · simp [executeUpdate, hg, hcr, ha] at h
        · simp [executeUpdate, hg, hcr, ha] at h
          exact h.2.symm
  · intro ident store e store' h
    cases hg : getCollab store ident with
    | none =>
      simp [executeDelete, hg] at h
      exact h.2.symm
    | some c =>
      simp [executeDelete, hg] at h
  · intro lm tm fm module? s e s' h
    cases module? with
    | none =>
      simp [executeAdd] at h
      exact h.2.symm
    | some m =>
      cases hl : lm m with
      | error msg =>
        simp [executeAdd, hl] at h
        exact h.2.symm
      | ok manifest =>
        by_cases htm : tm (s.currentContentTypes ++ manifest.contentTypes)
            (s.currentSignalTypes ++ manifest.signalTypes) = false
        · simp [executeAdd, hl, htm] at h
          exact h.2.symm
        · have htm' : tm (s.currentContentTypes ++ manifest.contentTypes)
              (s.currentSignalTypes ++ manifest.signalTypes) = true := by
            cases hb : tm (s.currentContentTypes ++ manifest.contentTypes)
              (s.currentSignalTypes ++ manifest.signalTypes)
            · exact absurd hb htm
            · rfl
          cases hp : probeApis manifest.apis with
          | error e2 =>
            simp [executeAdd, hl, htm', hp] at h
            exact h.2.symm
          | ok newApis =>
            by_cases hfm : fm (newApis ++ s.currentApis) = false
            · simp [executeAdd, hl, htm', hp, hfm] at h
              exact h.2.symm
            · have hfm' : fm (newApis ++ s.currentApis) = true := by
                cases hb : fm (newApis ++ s.currentApis)
                · exact absurd hb hfm
                · rfl
              simp [executeAdd, hl, htm', hp, hfm'] at h

/-- Claim C3, witness: deleting from an empty store fails and leaves the store
empty. -/
theorem c3_failure_preserves_state_witness :
    executeDelete (Value.str "a") [] = (some CmdFailure.noSuchCollab, []) ∧
    ([] : Store) = [] := by
  exact ⟨rfl,
    c3_failure_preserves_state.2.1 (Value.str "a") [] CmdFailure.noSuchCollab [] rfl⟩

/-- Claim C9: with the module supplied, the manifest loaded and the type
mapping valid, a manifest whose API types all construct is probed in full
(returning every instance); if any API type fails zero-argument construction,
the command fails with an instantiation error naming a failing API type,
reported with exit code 2, and the settings (in particular the persisted
extension list) are unchanged. -/
theorem c9_extension_probe (loadManifest : String → Except String Manifest)
    (typeMappingOk : List String → List String → Bool)
    (fetcherMappingOk : List ApiType → Bool) (m : String) (s : ExtSettings)
    (manifest : Manifest) (hm : loadManifest m = .ok manifest)
    (htm : typeMappingOk (s.currentContentTypes ++ manifest.contentTypes)
      (s.currentSignalTypes ++ manifest.signalTypes) = true) :
    ((∀ a ∈ manifest.apis, a.constructOk = true) →
      probeApis manifest.apis = .ok manifest.apis) ∧
    ((∃ a ∈ manifest.apis, a.constructOk = false) →
      ∃ a0, a0 ∈ manifest.apis ∧ a0.constructOk = false ∧
        executeAdd loadManifest typeMappingOk fetcherMappingOk (some m) s
          = (some (.instantiationError a0.name), s) ∧
        cliExitCode (.instantiationError a0.name) = 2) := by
  constructor
  · exact probeApis_ok manifest.apis
  · intro hex
    rcases probeApis_error manifest.apis hex with ⟨a0, ha0, hc0, hp⟩
    refine ⟨a0, ha0, hc0, ?_, rfl⟩
    simp [executeAdd, hm, htm, hp]

/-- Claim C9, witness: a manifest with one API type whose constructor raises. -/
theorem c9_extension_probe_witness :
    executeAdd (fun _ => .ok (Manifest.mk [] [] [ApiType.mk "badapi" false]))
        (fun _ _ => true) (fun _ => true) (some "my_extension")
        (ExtSettings.mk [] [] [] [])
      = (some (.instantiationError "badapi"), ExtSettings.mk [] [] [] []) ∧
    cliExitCode (.instantiationError "badapi") = 2 ∧
    (ExtSettings.mk [] [] [] []).extensions = [] := by
  have h := (c9_extension_probe
    (fun _ => .ok (Manifest.mk [] [] [ApiType.mk "badapi" false]))
    (fun _ _ => true) (fun _ => true) "my_extension" (ExtSettings.mk [] [] [] [])
    (Manifest.mk [] [] [ApiType.mk "badapi" false]) rfl rfl).2
    ⟨ApiType.mk "badapi" false, by decide, rfl⟩
  rcases h with ⟨a0, ha0, hc0, heq, hcode⟩
  have ha : a0 = ApiType.mk "badapi" false := by simpa using ha0
  subst ha
  exact ⟨heq, hcode, rfl⟩

end ConfigCmd
